import Mathlib

/-!
Verification of the candidate-scoring engine of the ICD-LM repository.

The development shallowly embeds the in-scope Python code:

* `utils.py`: `get_info_score`, `get_cider_score`, `caption_postprocess`;
* `src/candidate_sampler/random_sampler.py`: `RandSampler.sample`.

Modelling conventions:

* Python `str` values are Lean `String`s; the Python string primitives used by
  the code (`in`, `str.split(sep, 1)[0]`, single-character `str.replace`) are
  re-implemented structurally over `List Char` so that they evaluate inside
  the kernel (`takeUntil`, `containsSub`, `pyReplaceChar`).
* The external model interface (§4.1 of the spec) is a structure of abstract
  functions: the composite prompt-rendering / tokenising / masking pipeline
  that ends in `interface.get_cond_prob` is modelled as a single function
  `condProb` from a sequence of examples to the conditional probability of
  the query answer, and the generation + batch-decode pipeline as a function
  `generate` from a sequence to the decoded text.  Parameters that are only
  consumed inside that external pipeline (`split_token`, `gen_kwargs`, the
  tokenizer ids) are folded into the abstract interface.
* The external metric `compute_cider` (predictions, annotation path ↦ map
  from image id to CIDEr value, used with `reduce_cider=False`) is an
  abstract function parameter.
* Python exceptions are modelled with `Except PyError`: the `IndexError` of
  `choosed_icd_seq_list[-1]` on an empty sequence, the `ValueError` of an
  unknown `construct_order`, and the `RuntimeError` of `torch.cat` on an
  empty tensor list.
* Python dicts are association lists in insertion order; `dictInsert`
  implements Python assignment `d[k] = v` (update in place, append if new).
* `random.sample(range(0, len(train_ds)), candidate_num)` is an external
  random source, modelled by an oracle `draws` giving the successive draw
  results; its documented contract (distinct members of the range) is the
  hypothesis `drawValid`.  The unbounded `while` loop is run on explicit
  fuel, and the results are stated conditionally on termination.
-/

/-- One dataset record, as consumed by the scoring engine: the engine itself
only reads the `idx` and `image_id` attributes (`data['idx']`,
`data['image_id']` in `get_cider_score`); all other fields are consumed
opaquely by the external model interface. -/
structure Example where
  idx : Nat
  image_id : Nat
  deriving DecidableEq, Repr, Inhabited

/-- Python exceptions raised by the embedded code. -/
inductive PyError
  | indexError : PyError
  | valueError : String → PyError
  | catEmpty : PyError
  deriving DecidableEq, Repr

/-- A Python dict of candidates: unique keys plus a lookup function.  The code
only reads `candidate_set.keys()` and `candidate_set[i]` at its own keys. -/
structure CandidateSet where
  keys : List Nat
  get : Nat → Example

/-- The external model interface of §4.1, reduced to the two composite
operations the scoring engine actually extracts from it (see the module
docstring): `condProb` for the `prepare_input` / `get_cond_prob` pipeline of
`get_info_score` (per batch item), and `generate` for the
`prepare_input` / `generate` / `batch_decode` pipeline of `get_cider_score`
(per batch item). -/
structure Interface where
  condProb : List Example → ℚ
  generate : List Example → String

/-- Value stored in `output_dict[data['idx']]` by `get_cider_score`:
`{'prediction': ..., 'image_id': ...}`. -/
structure GenRecord where
  prediction : String
  image_id : Nat
  deriving DecidableEq, Repr, Inhabited

/-- One entry of a `pred_coco` list: `{'image_id': ..., 'caption': ...}`.
The caption is an `Option` because `caption_postprocess` returns Python
`None` on an unrecognised model name. -/
structure CocoPred where
  image_id : Nat
  caption : Option String
  deriving DecidableEq, Repr

/-- Python dict assignment `d[k] = v` on an insertion-ordered association
list: an existing key keeps its position and gets the new value, a fresh key
is appended at the end. -/
def dictInsert {α : Type} (d : List (Nat × α)) (k : Nat) (v : α) : List (Nat × α) :=
  if d.any (fun p => p.1 == k) then
    d.map (fun p => if p.1 = k then (k, v) else p)
  else d ++ [(k, v)]

/-- `more_itertools.chunked(l, n)`: successive chunks of `n` elements, the
last chunk possibly shorter.  For `n = 0` the Python iterator yields nothing,
matching this definition.  (Structural accumulator formulation so that it
evaluates in the kernel.) -/
def chunkedAux {α : Type} (n : Nat) : List α → List α → List (List α)
  | [], acc => if acc.isEmpty then [] else [acc]
  | x :: xs, acc =>
    if (acc ++ [x]).length = n then (acc ++ [x]) :: chunkedAux n xs []
    else chunkedAux n xs (acc ++ [x])

/-- `more_itertools.chunked(l, n)` (see `chunkedAux`). -/
def chunked {α : Type} (l : List α) (n : Nat) : List (List α) :=
  if n = 0 then [] else chunkedAux n l []

/-- Python `pat in s` on character lists (`pat` the needle). -/
def containsSub (pat : List Char) : List Char → Bool
  | [] => pat.isEmpty
  | c :: rest => pat.isPrefixOf (c :: rest) || containsSub pat rest

/-- Python `s.split(pat, 1)[0]` for a non-empty separator `pat`: the prefix of
`s` before the first occurrence of `pat` (all of `s` if `pat` does not
occur). -/
def takeUntil (pat : List Char) : List Char → List Char
  | [] => []
  | c :: rest => if pat.isPrefixOf (c :: rest) then [] else c :: takeUntil pat rest

/-- Python `s.replace(old, new)` for a single-character pattern `old` (the
only form the code uses: `'"'` and `'\n'`). -/
def pyReplaceChar (old : Char) (new : List Char) : List Char → List Char
  | [] => []
  | c :: rest => (if c = old then new else [c]) ++ pyReplaceChar old new rest

/-- Python `sub in s` on strings. -/
def pyContains (s sub : String) : Bool := containsSub sub.toList s.toList

/-- Python `s.split(sep, 1)[0]` on strings. -/
def pySplitFirst (s sep : String) : String := String.mk (takeUntil sep.toList s.toList)

/-- Python `s.replace(old, new)` on strings, single-character `old`. -/
def pyReplace1 (s : String) (old : Char) (new : String) : String :=
  String.mk (pyReplaceChar old new.toList s.toList)

/-- `utils.caption_postprocess(text, model_name)`.  The Python function has no
final `else` branch, so it returns `None` (modelled as `none`) when
`model_name` names neither model family. -/
def caption_postprocess (text : String) (model_name : String) : Option String :=
  if pyContains model_name "flamingo" then
    some (pyReplace1 (pySplitFirst text "Output") '"' "")
  else if pyContains model_name "idefics" then
    some (pyReplace1 (pyReplace1 (pySplitFirst text "Caption") '"' "") '\n' "")
  else
    none

/-- The shared `add_new_icd_seq_list` construction of `get_info_score`
(utils.py lines 78–90) and `get_cider_score` (lines 175–187): per candidate of
the batch, `left` builds `[new_icd] + choosed_icd_seq_list` and `right` builds
`choosed_icd_seq_list[:-1] + [new_icd] + [choosed_icd_seq_list[-1]]`; any
other `construct_order` raises `ValueError`. -/
def build_aug_seq_list (construct_order : String) (choosed_icd_seq_list : List Example)
    (batch_data : List Example) : Except PyError (List (List Example)) :=
  if construct_order = "left" then
    .ok (batch_data.map fun new_icd => [new_icd] ++ choosed_icd_seq_list)
  else if construct_order = "right" then
    .ok (batch_data.map fun new_icd =>
      choosed_icd_seq_list.dropLast ++ [new_icd] ++ [choosed_icd_seq_list.getLast!])
  else
    .error (.valueError
      ("the construct_order should be left or right, but got " ++ construct_order))

/-- The augmented sequence for one candidate (the per-element body of
`build_aug_seq_list`, for a valid `construct_order`). -/
def insert_icd (construct_order : String) (choosed : List Example)
    (new_icd : Example) : List Example :=
  if construct_order = "left" then [new_icd] ++ choosed
  else choosed.dropLast ++ [new_icd] ++ [choosed.getLast!]

/-- The batch loop of `get_info_score` (utils.py lines 74–124): per batch,
look the candidates up, build the augmented sequences, score them through the
interface, subtract the baseline, and collect the per-batch score vectors in
order. -/
def info_score_batches (I : Interface) (choosed : List Example) (cond_prob : ℚ)
    (cset : CandidateSet) (construct_order : String) :
    List (List Nat) → Except PyError (List (List ℚ))
  | [] => .ok []
  | batch :: rest =>
    let batch_data := batch.map cset.get
    match build_aug_seq_list construct_order choosed batch_data with
    | .error e => .error e
    | .ok add_new_icd_seq_list =>
      let new_cond_prob := add_new_icd_seq_list.map I.condProb
      let sub_info_score := new_cond_prob.map (fun p => p - cond_prob)
      match info_score_batches I choosed cond_prob cset construct_order rest with
      | .error e => .error e
      | .ok tail => .ok (sub_info_score :: tail)

/-- `utils.get_info_score` (lines 36–125).  The baseline `cond_prob` is
computed once, the candidate indices are sorted ascending, the batches are
scored, and the per-batch vectors are concatenated by `torch.cat`, which
raises on an empty list. -/
def get_info_score (I : Interface) (choosed_icd_seq_list : List Example)
    (candidate_set : CandidateSet) (batch_size : Nat) (construct_order : String) :
    Except PyError (List ℚ) :=
  if choosed_icd_seq_list = [] then .error .indexError
  else
    let cond_prob := I.condProb choosed_icd_seq_list
    let cand_idx := candidate_set.keys.insertionSort (· ≤ ·)
    match info_score_batches I choosed_icd_seq_list cond_prob candidate_set
        construct_order (chunked cand_idx batch_size) with
    | .error e => .error e
    | .ok info_score_list =>
      if info_score_list.isEmpty then .error .catEmpty
      else .ok info_score_list.flatten

/-- The batch loop of `get_cider_score` (utils.py lines 173–213): per batch,
build the augmented sequences, generate and decode a caption per candidate,
and store `{'prediction': ..., 'image_id': ...}` in `output_dict` under the
candidate's own `idx` field. -/
def cider_gen_batches (I : Interface) (choosed : List Example) (cset : CandidateSet)
    (construct_order : String) :
    List (List Nat) → List (Nat × GenRecord) → Except PyError (List (Nat × GenRecord))
  | [], output_dict => .ok output_dict
  | batch :: rest, output_dict =>
    let batch_data := batch.map cset.get
    match build_aug_seq_list construct_order choosed batch_data with
    | .error e => .error e
    | .ok add_new_icd_seq_list =>
      let generated := add_new_icd_seq_list.map I.generate
      let output_dict := (batch_data.zip generated).foldl
        (fun d p => dictInsert d p.1.idx ⟨p.2, p.1.image_id⟩) output_dict
      cider_gen_batches I choosed cset construct_order rest output_dict

/-- The `pred_coco` list built from `output_dict` after all batches of
`get_cider_score` (utils.py lines 215–224): one record per accumulated entry,
in dict order, with the post-processed caption. -/
def cider_pred_coco (model_name : String) (output_dict : List (Nat × GenRecord)) :
    List CocoPred :=
  output_dict.map fun kv =>
    { image_id := kv.2.image_id
      caption := caption_postprocess kv.2.prediction model_name }

/-- `utils.get_cider_score` (lines 128–231).  `compute_cider` is the external
metric (module docstring).  The baseline generation and its CIDEr value
(`origin_cider_score`) are computed once before the loop, the batches are
generated, CIDEr is computed in one pass over the full `pred_coco`, and the
final scores are looked up per candidate by `image_id`. -/
def get_cider_score (I : Interface)
    (compute_cider : List CocoPred → String → Nat → ℚ)
    (choosed_icd_seq_list : List Example) (candidate_set : CandidateSet)
    (batch_size : Nat) (model_name : String) (train_ann_path : String)
    (construct_order : String) : Except PyError (List ℚ) :=
  if choosed_icd_seq_list = [] then .error .indexError
  else
    let generated := I.generate choosed_icd_seq_list
    let query_image_id := (choosed_icd_seq_list.getLast!).image_id
    let origin_pred_coco : List CocoPred :=
      [{ image_id := query_image_id, caption := some generated }]
    let origin_cider_score := compute_cider origin_pred_coco train_ann_path query_image_id
    let cand_idx := candidate_set.keys.insertionSort (· ≤ ·)
    match cider_gen_batches I choosed_icd_seq_list candidate_set construct_order
        (chunked cand_idx batch_size) [] with
    | .error e => .error e
    | .ok output_dict =>
      let pred_coco := cider_pred_coco model_name output_dict
      let cider_score := cand_idx.map fun idx =>
        compute_cider pred_coco train_ann_path (candidate_set.get idx).image_id
      .ok (cider_score.map fun s => s - origin_cider_score)

/-- `RandSampler` strategy state.  `candidate_num` is stored by the
`BaseSampler` constructor via the visible `super().__init__` call; the
caching fields it also stores are out of scope (§4.4). -/
structure RandSampler where
  candidate_num : Nat

/-- The documented contract of `random.sample(range(0, n), k)`: `k` distinct
results, all in `[0, n)`. -/
def drawValid (n k : Nat) (l : List Nat) : Prop :=
  l.length = k ∧ l.Nodup ∧ ∀ x ∈ l, x < n

/-- The rejection loop of `RandSampler.sample` for one anchor: take draw `t`
from the oracle; while the anchor appears in the draw, redraw the whole list.
`fuel` bounds the number of redraws (the Python loop is unbounded). -/
def resample_loop (draws : Nat → List Nat) (s_idx : Nat) :
    Nat → Nat → Option (List Nat)
  | t, fuel =>
    if s_idx ∈ draws t then
      match fuel with
      | 0 => none
      | fuel' + 1 => resample_loop draws s_idx (t + 1) fuel'
    else some (draws t)

/-- `RandSampler.sample(anchor_set, train_ds)`
(random_sampler.py lines 14–25): per anchor, run the rejection loop on a
fresh draw stream and store the result in `candidate_set_idx` under the
anchor; `none` if some anchor exhausts its fuel. -/
def RandSampler.sample (_self : RandSampler) (anchor_set : List Nat)
    (draws : Nat → Nat → List Nat) (fuel : Nat) : Option (List (Nat × List Nat)) :=
  anchor_set.foldlM
    (fun candidate_set_idx s_idx =>
      match resample_loop (draws s_idx) s_idx 0 fuel with
      | none => none
      | some cs => some (dictInsert candidate_set_idx s_idx cs))
    []

/-- A concrete deterministic interface used in witness instantiations: the
conditional probability of a sequence is its length, and the generated
caption is the index of its first example. -/
def probeInterface : Interface :=
  ⟨fun s => (s.length : ℚ), fun s => toString s.head!.idx⟩

/-- A concrete deterministic stand-in for `compute_cider` used in witness
instantiations: the CIDEr value of an image id is the number of predictions
carrying that id. -/
def probeCider : List CocoPred → String → Nat → ℚ :=
  fun preds _ img => ((preds.filter (fun p => p.image_id == img)).length : ℚ)

theorem chunkedAux_flatten {α : Type} (n : Nat) (l acc : List α)
    (h : acc.length < n) : (chunkedAux n l acc).flatten = acc ++ l := by
  induction l generalizing acc with
  | nil =>
    simp only [chunkedAux]
    split
    · rename_i he
      simp [List.isEmpty_iff.mp he]
    · simp
  | cons x xs ih =>
    simp only [chunkedAux]
    split
    · rename_i hlen
      rw [List.flatten_cons, ih [] (by simp only [List.length_nil]; omega)]
      simp
    · rename_i hlen
      rw [ih (acc ++ [x])
        (by simp only [List.length_append, List.length_cons, List.length_nil] at hlen ⊢; omega)]
      simp

theorem flatten_chunked {α : Type} (l : List α) (n : Nat) (hn : n ≠ 0) :
    (chunked l n).flatten = l := by
  rw [chunked, if_neg hn,
    chunkedAux_flatten n l [] (by simp only [List.length_nil]; omega)]
  simp

theorem chunkedAux_ne_nil {α : Type} (n : Nat) (l acc : List α)
    (h : acc.isEmpty = false ∨ l ≠ []) : chunkedAux n l acc ≠ [] := by
  induction l generalizing acc with
  | nil =>
    rcases h with h | h
    · simp [chunkedAux, h]
    · exact absurd rfl h
  | cons x xs ih =>
    simp only [chunkedAux]
    split
    · simp
    · exact ih _ (Or.inl (by simp))

theorem chunked_ne_nil {α : Type} (l : List α) (n : Nat) (hl : l ≠ []) (hn : n ≠ 0) :
    chunked l n ≠ [] := by
  rw [chunked, if_neg hn]
  exact chunkedAux_ne_nil n l [] (Or.inr hl)

theorem chunked_nil {α : Type} (n : Nat) : chunked ([] : List α) n = [] := by
  unfold chunked chunkedAux
  split <;> simp

theorem build_aug_seq_list_eq_map (order : String) (seq : List Example)
    (batch : List Example) (horder : order = "left" ∨ order = "right") :
    build_aug_seq_list order seq batch = .ok (batch.map (insert_icd order seq)) := by
  rcases horder with h | h <;> subst h <;> simp [build_aug_seq_list, insert_icd]

theorem build_aug_seq_list_err (order : String) (seq : List Example)
    (batch : List Example) (h1 : order ≠ "left") (h2 : order ≠ "right") :
    build_aug_seq_list order seq batch =
      .error (.valueError
        ("the construct_order should be left or right, but got " ++ order)) := by
  unfold build_aug_seq_list
  rw [if_neg h1, if_neg h2]

theorem getLast!_concat {α : Type} [Inhabited α] (ys : List α) (y : α) :
    (ys ++ [y]).getLast! = y :=
  List.getLast!_of_getLast? (List.getLast?_concat _)

theorem info_score_batches_ok (I : Interface) (seq : List Example) (p : ℚ)
    (cset : CandidateSet) (order : String)
    (horder : order = "left" ∨ order = "right") (batches : List (List Nat)) :
    info_score_batches I seq p cset order batches =
      .ok (batches.map fun b =>
        b.map fun i => I.condProb (insert_icd order seq (cset.get i)) - p) := by
  induction batches with
  | nil => rfl
  | cons b rest ih =>
    simp only [info_score_batches, build_aug_seq_list_eq_map order seq _ horder, ih,
      List.map_map, List.map_cons]
    rfl

theorem info_score_batches_err (I : Interface) (seq : List Example) (p : ℚ)
    (cset : CandidateSet) (order : String)
    (h1 : order ≠ "left") (h2 : order ≠ "right") (b : List Nat) (rest : List (List Nat)) :
    info_score_batches I seq p cset order (b :: rest) =
      .error (.valueError
        ("the construct_order should be left or right, but got " ++ order)) := by
  simp only [info_score_batches, build_aug_seq_list_err order seq _ h1 h2]

theorem insertionSort_ne_nil (keys : List Nat) (h : keys ≠ []) :
    keys.insertionSort (· ≤ ·) ≠ [] := by
  intro hs
  apply h
  have hp := List.perm_insertionSort (· ≤ ·) keys
  rw [hs] at hp
  exact hp.nil_eq.symm

theorem get_info_score_eq (I : Interface) (seq : List Example)
    (cset : CandidateSet) (B : Nat) (order : String)
    (hseq : seq ≠ []) (hB : B ≠ 0) (hkeys : cset.keys ≠ [])
    (horder : order = "left" ∨ order = "right") :
    get_info_score I seq cset B order =
      .ok ((cset.keys.insertionSort (· ≤ ·)).map
        fun i => I.condProb (insert_icd order seq (cset.get i)) - I.condProb seq) := by
  have hsort := insertionSort_ne_nil cset.keys hkeys
  have hchunk := chunked_ne_nil (cset.keys.insertionSort (· ≤ ·)) B hsort hB
  simp only [get_info_score, if_neg hseq, info_score_batches_ok I seq _ cset order horder]
  have hne : ((chunked (cset.keys.insertionSort (· ≤ ·)) B).map fun b =>
      b.map fun i => I.condProb (insert_icd order seq (cset.get i)) - I.condProb seq) ≠ [] := by
    simp only [ne_eq, List.map_eq_nil_iff]
    exact hchunk
  rw [if_neg (by simp only [List.isEmpty_iff]; exact hne)]
  rw [← List.map_flatten, flatten_chunked _ B hB]

/-- Concrete query example used in witness instantiations. -/
def wQuery : Example := ⟨9, 77⟩

/-- Concrete two-candidate set used in witness instantiations (keys listed
unsorted on purpose). -/
def wCandSet : CandidateSet := ⟨[1, 0], fun i => ⟨i, 7⟩⟩

/-- C1: for every chosen ICD sequence (non-empty; its last element is the
query), every non-empty candidate set, every positive batch size and both
insertion orders, `get_info_score` succeeds and returns the vector aligned
with the candidate indices sorted ascending whose `i`-th entry is the model's
conditional probability of the query answer given the sequence with the
`i`-th sorted candidate inserted, minus the baseline conditional probability
of the answer given the sequence alone; the vector has length `|C|`. -/
theorem C1_info_score_aligned (I : Interface) (seq : List Example)
    (cset : CandidateSet) (B : Nat) (order : String)
    (hseq : seq ≠ []) (hB : B ≠ 0) (hkeys : cset.keys ≠ [])
    (horder : order = "left" ∨ order = "right") :
    ∃ cand_idx : List Nat,
      List.Perm cand_idx cset.keys ∧
      List.Sorted (· ≤ ·) cand_idx ∧
      get_info_score I seq cset B order =
        .ok (cand_idx.map fun i =>
          I.condProb (insert_icd order seq (cset.get i)) - I.condProb seq) ∧
      (cand_idx.map fun i =>
          I.condProb (insert_icd order seq (cset.get i)) - I.condProb seq).length
        = cset.keys.length := by
  refine ⟨cset.keys.insertionSort (· ≤ ·), List.perm_insertionSort _ _,
    List.sorted_insertionSort _ _,
    get_info_score_eq I seq cset B order hseq hB hkeys horder, ?_⟩
  rw [List.length_map]
  exact (List.perm_insertionSort _ _).length_eq

/-- C1 witness: the two-candidate set `{1, 0}` with batch size 1 and `left`
insertion, under the deterministic probe interface. -/
theorem C1_witness :
    ∃ cand_idx : List Nat,
      List.Perm cand_idx wCandSet.keys ∧
      List.Sorted (· ≤ ·) cand_idx ∧
      get_info_score probeInterface [wQuery] wCandSet 1 "left" =
        .ok (cand_idx.map fun i =>
          probeInterface.condProb (insert_icd "left" [wQuery] (wCandSet.get i))
            - probeInterface.condProb [wQuery]) ∧
      (cand_idx.map fun i =>
          probeInterface.condProb (insert_icd "left" [wQuery] (wCandSet.get i))
            - probeInterface.condProb [wQuery]).length = wCandSet.keys.length :=
  C1_info_score_aligned probeInterface [wQuery] wCandSet 1 "left"
    (by decide) (by decide) (by decide) (Or.inl rfl)

/-- C4: for both `left` and `right` construct orders, every augmented
sequence built by the shared sequence constructor of `get_info_score` and
`get_cider_score` keeps the query example — the last element of the input
chosen sequence — as its final element. -/
theorem C4_query_stays_last (order : String) (seq : List Example)
    (batch_data : List Example) (hseq : seq ≠ [])
    (horder : order = "left" ∨ order = "right") :
    ∃ seqs, build_aug_seq_list order seq batch_data = .ok seqs ∧
      ∀ s ∈ seqs, s.getLast? = seq.getLast? := by
  refine ⟨batch_data.map (insert_icd order seq),
    build_aug_seq_list_eq_map order seq batch_data horder, ?_⟩
  intro s hs
  rw [List.mem_map] at hs
  obtain ⟨c, _, rfl⟩ := hs
  obtain ⟨ys, y, rfl⟩ := (List.eq_nil_or_concat seq).resolve_left hseq
  simp only [List.concat_eq_append]
  rcases horder with h | h <;> subst h <;> unfold insert_icd
  · rw [if_pos rfl, ← List.append_assoc, List.getLast?_concat, List.getLast?_concat]
  · rw [if_neg (by decide), getLast!_concat, List.getLast?_concat, List.getLast?_concat]

/-- C4 witness: a singleton batch inserted at the left of a singleton
sequence. -/
theorem C4_witness :
    ∃ seqs, build_aug_seq_list "left" [wQuery] [⟨0, 7⟩] = .ok seqs ∧
      ∀ s ∈ seqs, s.getLast? = [wQuery].getLast? :=
  C4_query_stays_last "left" [wQuery] [⟨0, 7⟩] (by decide) (Or.inl rfl)

/-- C7: the two documented `caption_postprocess` evaluations: the flamingo
branch truncates at the literal marker `Output` and strips double quotes, and
the idefics branch truncates at `Caption` and strips double quotes and
newlines. -/
theorem C7_caption_postprocess_examples :
    caption_postprocess "A dog.Output extra" "flamingo" = some "A dog." ∧
    caption_postprocess "\"A cat.\"Caption: junk" "idefics" = some "A cat." :=
  ⟨by decide, by decide⟩

/-- C8 counterexample: for a model name that names neither family,
`caption_postprocess` does not raise an unhandled-case error: the Python
function falls off its `if`/`elif` chain and returns the value `None`
(modelled `none`); the function is total and has no error channel. -/
theorem C8_counterexample : caption_postprocess "hello" "gpt2" = none := by decide

/-- C8 amended: for every model name containing neither `flamingo` nor
`idefics`, `caption_postprocess` returns Python `None` — no string result and
no default processing branch, but a normal return rather than a raised
error. -/
theorem C8_amended (text model_name : String)
    (h1 : pyContains model_name "flamingo" = false)
    (h2 : pyContains model_name "idefics" = false) :
    caption_postprocess text model_name = none := by
  simp [caption_postprocess, h1, h2]

/-- C8 witness: the unrecognised model name `gpt-j`. -/
theorem C8_witness :
    pyContains "gpt-j" "flamingo" = false ∧
    pyContains "gpt-j" "idefics" = false ∧
    caption_postprocess "some text" "gpt-j" = none :=
  ⟨by decide, by decide, C8_amended "some text" "gpt-j" (by decide) (by decide)⟩

/-- C9: with an empty candidate set (and a non-empty chosen sequence, so the
baseline is computed), `get_info_score` reaches the final concatenation with
an empty list of per-batch results and raises the `torch.cat` empty-list
error instead of returning an empty score vector, for every batch size and
every construct order. -/
theorem C9_empty_candidate_set (I : Interface) (g : Nat → Example)
    (seq : List Example) (B : Nat) (order : String) (hseq : seq ≠ []) :
    get_info_score I seq ⟨[], g⟩ B order = .error .catEmpty := by
  unfold get_info_score
  rw [if_neg hseq]
  simp only [List.insertionSort, chunked_nil, info_score_batches, List.isEmpty_nil, if_true]

/-- C9 witness: the probe interface, a singleton sequence, batch size 4. -/
theorem C9_witness :
    get_info_score probeInterface [wQuery] ⟨[], fun i => ⟨i, 7⟩⟩ 4 "left" =
      .error .catEmpty :=
  C9_empty_candidate_set probeInterface (fun i => ⟨i, 7⟩) [wQuery] 4 "left" (by decide)

theorem fold_zip_map {α β γ δ : Type} (l : List α) (f : α → β) (g : α → γ)
    (h : δ → β × γ → δ) (init : δ) :
    ((l.map f).zip (l.map g)).foldl h init
      = l.foldl (fun acc x => h acc (f x, g x)) init := by
  induction l generalizing init with
  | nil => rfl
  | cons x xs ih =>
    simp only [List.map_cons, List.zip_cons_cons, List.foldl_cons]
    exact ih _

theorem cider_gen_batches_ok (I : Interface) (seq : List Example)
    (cset : CandidateSet) (order : String)
    (horder : order = "left" ∨ order = "right")
    (batches : List (List Nat)) (d : List (Nat × GenRecord)) :
    cider_gen_batches I seq cset order batches d =
      .ok (batches.flatten.foldl
        (fun d i => dictInsert d (cset.get i).idx
          ⟨I.generate (insert_icd order seq (cset.get i)), (cset.get i).image_id⟩) d) := by
  induction batches generalizing d with
  | nil => rfl
  | cons b rest ih =>
    simp only [cider_gen_batches, build_aug_seq_list_eq_map order seq _ horder,
      List.map_map, fold_zip_map, ih, List.flatten_cons,
      List.foldl_append, Function.comp_def]

theorem cider_gen_batches_err (I : Interface) (seq : List Example)
    (cset : CandidateSet) (order : String)
    (h1 : order ≠ "left") (h2 : order ≠ "right")
    (b : List Nat) (rest : List (List Nat)) (d : List (Nat × GenRecord)) :
    cider_gen_batches I seq cset order (b :: rest) d =
      .error (.valueError
        ("the construct_order should be left or right, but got " ++ order)) := by
  simp only [cider_gen_batches, build_aug_seq_list_err order seq _ h1 h2]

theorem get_cider_score_eq (I : Interface) (cc : List CocoPred → String → Nat → ℚ)
    (seq : List Example) (cset : CandidateSet) (B : Nat)
    (m ann order : String) (hseq : seq ≠ []) (hB : B ≠ 0)
    (horder : order = "left" ∨ order = "right") :
    get_cider_score I cc seq cset B m ann order =
      .ok ((cset.keys.insertionSort (· ≤ ·)).map fun idx =>
        cc (cider_pred_coco m
            ((cset.keys.insertionSort (· ≤ ·)).foldl
              (fun d i => dictInsert d (cset.get i).idx
                ⟨I.generate (insert_icd order seq (cset.get i)),
                  (cset.get i).image_id⟩) []))
          ann (cset.get idx).image_id
        - cc [⟨(seq.getLast!).image_id, some (I.generate seq)⟩] ann
            (seq.getLast!).image_id) := by
  simp only [get_cider_score, if_neg hseq, cider_gen_batches_ok I seq cset order horder,
    flatten_chunked _ B hB, List.map_map, Function.comp_def]

theorem get_info_score_invalid (I : Interface) (seq : List Example)
    (cset : CandidateSet) (B : Nat) (order : String)
    (hseq : seq ≠ []) (hB : B ≠ 0) (hkeys : cset.keys ≠ [])
    (h1 : order ≠ "left") (h2 : order ≠ "right") :
    get_info_score I seq cset B order =
      .error (.valueError
        ("the construct_order should be left or right, but got " ++ order)) := by
  obtain ⟨b, rest, hbr⟩ := List.exists_cons_of_ne_nil
    (chunked_ne_nil _ B (insertionSort_ne_nil _ hkeys) hB)
  simp only [get_info_score, if_neg hseq, hbr,
    info_score_batches_err I seq _ cset order h1 h2 b rest]

theorem get_cider_score_invalid (I : Interface) (cc : List CocoPred → String → Nat → ℚ)
    (seq : List Example) (cset : CandidateSet) (B : Nat)
    (m ann order : String) (hseq : seq ≠ []) (hB : B ≠ 0) (hkeys : cset.keys ≠ [])
    (h1 : order ≠ "left") (h2 : order ≠ "right") :
    get_cider_score I cc seq cset B m ann order =
      .error (.valueError
        ("the construct_order should be left or right, but got " ++ order)) := by
  obtain ⟨b, rest, hbr⟩ := List.exists_cons_of_ne_nil
    (chunked_ne_nil _ B (insertionSort_ne_nil _ hkeys) hB)
  simp only [get_cider_score, if_neg hseq, hbr,
    cider_gen_batches_err I seq cset order h1 h2 b rest]

theorem get_cider_score_empty_keys (I : Interface)
    (cc : List CocoPred → String → Nat → ℚ) (seq : List Example) (g : Nat → Example)
    (B : Nat) (m ann order : String) (hseq : seq ≠ []) :
    get_cider_score I cc seq ⟨[], g⟩ B m ann order = .ok [] := by
  unfold get_cider_score
  rw [if_neg hseq]
  simp only [List.insertionSort, chunked_nil, cider_gen_batches, List.map_nil]

/-- C5 counterexample: with an empty candidate set, `get_cider_score` never
examines `construct_order`: for the invalid order `"middle"` it returns an
empty score vector with no error at all, so the claimed unconditional
fail-fast configuration error does not hold. -/
theorem C5_counterexample :
    get_cider_score probeInterface probeCider [wQuery] ⟨[], fun i => ⟨i, 7⟩⟩ 1
      "flamingo" "ann" "middle" = .ok [] := rfl

/-- C5 amended: whenever at least one batch is processed — non-empty chosen
sequence, non-empty candidate set and positive batch size — an invalid
`construct_order` makes both `get_info_score` and `get_cider_score` raise the
`ValueError` naming the offending value, with no fallback insertion order;
with an empty candidate set the order is never inspected (`get_info_score`
fails with the empty-concatenation error instead, and `get_cider_score`
returns an empty vector). -/
theorem C5_amended (I : Interface) (cc : List CocoPred → String → Nat → ℚ)
    (seq : List Example) (cset : CandidateSet) (B : Nat) (m ann order : String)
    (hseq : seq ≠ []) (hB : B ≠ 0) (hkeys : cset.keys ≠ [])
    (h1 : order ≠ "left") (h2 : order ≠ "right") :
    get_info_score I seq cset B order =
      .error (.valueError
        ("the construct_order should be left or right, but got " ++ order)) ∧
    get_cider_score I cc seq cset B m ann order =
      .error (.valueError
        ("the construct_order should be left or right, but got " ++ order)) :=
  ⟨get_info_score_invalid I seq cset B order hseq hB hkeys h1 h2,
   get_cider_score_invalid I cc seq cset B m ann order hseq hB hkeys h1 h2⟩

/-- C5 witness: the invalid order `"top"` with one candidate. -/
theorem C5_witness :
    get_info_score probeInterface [wQuery] wCandSet 1 "top" =
      .error (.valueError
        ("the construct_order should be left or right, but got " ++ "top")) ∧
    get_cider_score probeInterface probeCider [wQuery] wCandSet 1 "flamingo" "ann"
        "top" =
      .error (.valueError
        ("the construct_order should be left or right, but got " ++ "top")) :=
  C5_amended probeInterface probeCider [wQuery] wCandSet 1 "flamingo" "ann" "top"
    (by decide) (by decide) (by decide) (by decide) (by decide)

/-- C3: `get_cider_score` is batch-size invariant: for any two positive batch
sizes and otherwise identical inputs the results agree exactly (the baseline
is computed once outside the batch loop and CIDEr is computed in a single
pass over the accumulated predictions, both visible in the definition of
`get_cider_score`). -/
theorem C3_batch_size_invariance (I : Interface)
    (cc : List CocoPred → String → Nat → ℚ) (seq : List Example)
    (cset : CandidateSet) (m ann order : String) (B1 B2 : Nat)
    (hB1 : B1 ≠ 0) (hB2 : B2 ≠ 0) :
    get_cider_score I cc seq cset B1 m ann order =
      get_cider_score I cc seq cset B2 m ann order := by
  by_cases hseq : seq = []
  · subst hseq; rfl
  · by_cases horder : order = "left" ∨ order = "right"
    · rw [get_cider_score_eq I cc seq cset B1 m ann order hseq hB1 horder,
        get_cider_score_eq I cc seq cset B2 m ann order hseq hB2 horder]
    · push_neg at horder
      by_cases hkeys : cset.keys = []
      · obtain ⟨keys, g⟩ := cset
        simp only at hkeys
        subst hkeys
        rw [get_cider_score_empty_keys I cc seq g B1 m ann order hseq,
          get_cider_score_empty_keys I cc seq g B2 m ann order hseq]
      · rw [get_cider_score_invalid I cc seq cset B1 m ann order hseq hB1 hkeys
          horder.1 horder.2,
          get_cider_score_invalid I cc seq cset B2 m ann order hseq hB2 hkeys
          horder.1 horder.2]

/-- C3 witness: batch sizes 1 and 2 on the two-candidate set. -/
theorem C3_witness :
    get_cider_score probeInterface probeCider [wQuery] wCandSet 1 "flamingo" "ann"
        "left" =
      get_cider_score probeInterface probeCider [wQuery] wCandSet 2 "flamingo" "ann"
        "left" :=
  C3_batch_size_invariance probeInterface probeCider [wQuery] wCandSet "flamingo"
    "ann" "left" 1 2 (by decide) (by decide)

theorem dictInsert_fresh {α : Type} (d : List (Nat × α)) (k : Nat) (v : α)
    (h : ∀ p ∈ d, p.1 ≠ k) : dictInsert d k v = d ++ [(k, v)] := by
  unfold dictInsert
  rw [if_neg]
  simp only [List.any_eq_true, beq_iff_eq, not_exists]
  intro p
  rw [not_and]
  exact h p

theorem foldl_dictInsert_fresh {α : Type} (keyOf : Nat → Nat) (valOf : Nat → α)
    (l : List Nat) (d : List (Nat × α))
    (hfresh : ∀ i ∈ l, ∀ p ∈ d, p.1 ≠ keyOf i)
    (hnodup : (l.map keyOf).Nodup) :
    l.foldl (fun d i => dictInsert d (keyOf i) (valOf i)) d
      = d ++ l.map (fun i => (keyOf i, valOf i)) := by
  induction l generalizing d with
  | nil => simp
  | cons i l ih =>
    rw [List.foldl_cons, dictInsert_fresh d (keyOf i) (valOf i)
      (hfresh i (List.mem_cons_self i l)), ih]
    · simp
    · intro j hj p hp
      rw [List.mem_append] at hp
      rcases hp with hp | hp
      · exact hfresh j (List.mem_cons_of_mem i hj) p hp
      · rw [List.mem_singleton] at hp
        subst hp
        rw [List.map_cons, List.nodup_cons] at hnodup
        intro he
        have he' : keyOf i = keyOf j := he
        exact hnodup.1 (by rw [he']; exact List.mem_map_of_mem keyOf hj)
    · rw [List.map_cons, List.nodup_cons] at hnodup
      exact hnodup.2

/-- C2: for every non-empty chosen sequence, candidate set (with distinct
keys whose stored examples carry their key as their `idx` field, as the
calling pipeline guarantees), positive batch size and valid insertion order,
`get_cider_score` succeeds and returns the vector ordered by ascending
candidate index whose entry for a candidate is the CIDEr value that the
single full-corpus `compute_cider` pass assigns to that candidate's image id
— its generation with the candidate inserted, post-processed — minus
`origin_cider_score`, the CIDEr value of the generation from the current
sequence alone. -/
theorem C2_cider_score_aligned (I : Interface)
    (cc : List CocoPred → String → Nat → ℚ) (seq : List Example)
    (cset : CandidateSet) (B : Nat) (m ann order : String)
    (hseq : seq ≠ []) (hB : B ≠ 0) (horder : order = "left" ∨ order = "right")
    (hnodup : cset.keys.Nodup) (hidx : ∀ k ∈ cset.keys, (cset.get k).idx = k) :
    ∃ cand_idx : List Nat,
      List.Perm cand_idx cset.keys ∧
      List.Sorted (· ≤ ·) cand_idx ∧
      get_cider_score I cc seq cset B m ann order =
        .ok (cand_idx.map fun i =>
          cc (cand_idx.map fun j =>
              { image_id := (cset.get j).image_id
                caption := caption_postprocess
                  (I.generate (insert_icd order seq (cset.get j))) m })
            ann (cset.get i).image_id
          - cc [⟨(seq.getLast!).image_id, some (I.generate seq)⟩] ann
              (seq.getLast!).image_id) ∧
      cand_idx.length = cset.keys.length := by
  refine ⟨cset.keys.insertionSort (· ≤ ·), List.perm_insertionSort _ _,
    List.sorted_insertionSort _ _, ?_, (List.perm_insertionSort _ _).length_eq⟩
  rw [get_cider_score_eq I cc seq cset B m ann order hseq hB horder]
  have hmem : ∀ i ∈ cset.keys.insertionSort (· ≤ ·), i ∈ cset.keys := fun i hi =>
    (List.perm_insertionSort (· ≤ ·) cset.keys).mem_iff.mp hi
  have hkeymap : (cset.keys.insertionSort (· ≤ ·)).map (fun i => (cset.get i).idx)
      = (cset.keys.insertionSort (· ≤ ·)).map id :=
    List.map_congr_left fun i hi => hidx i (hmem i hi)
  have hsortnodup : ((cset.keys.insertionSort (· ≤ ·)).map
      (fun i => (cset.get i).idx)).Nodup := by
    rw [hkeymap, List.map_id]
    exact (List.perm_insertionSort (· ≤ ·) cset.keys).nodup_iff.mpr hnodup
  have hfold := foldl_dictInsert_fresh (fun i => (cset.get i).idx)
    (fun i => ({ prediction := I.generate (insert_icd order seq (cset.get i)),
                 image_id := (cset.get i).image_id } : GenRecord))
    (cset.keys.insertionSort (· ≤ ·)) []
    (fun i _ p hp => absurd hp (List.not_mem_nil p)) hsortnodup
  simp only [] at hfold
  rw [hfold]
  simp only [List.nil_append, cider_pred_coco, List.map_map, Function.comp_def]

/-- C2 witness: the two-candidate set with batch size 1 under the probe
interface and probe metric. -/
theorem C2_witness :
    ∃ cand_idx : List Nat,
      List.Perm cand_idx wCandSet.keys ∧
      List.Sorted (· ≤ ·) cand_idx ∧
      get_cider_score probeInterface probeCider [wQuery] wCandSet 1 "flamingo"
          "ann" "left" =
        .ok (cand_idx.map fun i =>
          probeCider (cand_idx.map fun j =>
              { image_id := (wCandSet.get j).image_id
                caption := caption_postprocess
                  (probeInterface.generate (insert_icd "left" [wQuery] (wCandSet.get j)))
                  "flamingo" })
            "ann" (wCandSet.get i).image_id
          - probeCider [⟨([wQuery].getLast!).image_id,
                some (probeInterface.generate [wQuery])⟩] "ann"
              ([wQuery].getLast!).image_id) ∧
      cand_idx.length = wCandSet.keys.length :=
  C2_cider_score_aligned probeInterface probeCider [wQuery] wCandSet 1 "flamingo"
    "ann" "left" (by decide) (by decide) (Or.inl rfl) (by decide) (by decide)

/-- C10 counterexample: two distinct candidates (idx fields 0 and 1) sharing
image id 7: after both batches, the accumulated prediction map `output_dict`
holds BOTH entries — it is keyed by the candidate `idx` field, so neither
entry overwrites the other, and both predictions reach `compute_cider`. -/
theorem C10_counterexample :
    cider_gen_batches probeInterface [wQuery] ⟨[0, 1], fun i => ⟨i, 7⟩⟩ "left"
        (chunked (([0, 1] : List Nat).insertionSort (· ≤ ·)) 1) [] =
      .ok [(0, ⟨"0", 7⟩), (1, ⟨"1", 7⟩)] := rfl

/-- C10 amended: final scores are looked up by `image_id`, so two candidates
at sorted positions `p1` and `p2` whose examples share an image id receive
the identical score; both their predictions are retained in the accumulated
prediction map (see the counterexample) and which of them determines the
shared value is decided inside the external `compute_cider`, not by an
overwrite in the scoring code. -/
theorem C10_amended (I : Interface) (cc : List CocoPred → String → Nat → ℚ)
    (seq : List Example) (cset : CandidateSet) (B : Nat) (m ann order : String)
    (hseq : seq ≠ []) (hB : B ≠ 0) (horder : order = "left" ∨ order = "right")
    (p1 p2 : Nat)
    (hp1 : p1 < (cset.keys.insertionSort (· ≤ ·)).length)
    (hp2 : p2 < (cset.keys.insertionSort (· ≤ ·)).length)
    (himg : (cset.get ((cset.keys.insertionSort (· ≤ ·)).get ⟨p1, hp1⟩)).image_id
          = (cset.get ((cset.keys.insertionSort (· ≤ ·)).get ⟨p2, hp2⟩)).image_id) :
    ∃ scores : List ℚ,
      get_cider_score I cc seq cset B m ann order = .ok scores ∧
      scores.length = cset.keys.length ∧
      ∀ (q1 : p1 < scores.length) (q2 : p2 < scores.length),
        scores.get ⟨p1, q1⟩ = scores.get ⟨p2, q2⟩ := by
  refine ⟨_, get_cider_score_eq I cc seq cset B m ann order hseq hB horder, ?_, ?_⟩
  · rw [List.length_map]
    exact (List.perm_insertionSort _ _).length_eq
  · intro q1 q2
    rw [List.get_eq_getElem, List.get_eq_getElem, List.getElem_map, List.getElem_map]
    rw [List.get_eq_getElem, List.get_eq_getElem] at himg
    rw [himg]

/-- C10 witness: the two candidates of `wCandSet` share image id 7; sorted
positions 0 and 1 receive equal scores. -/
theorem C10_witness :
    ∃ scores : List ℚ,
      get_cider_score probeInterface probeCider [wQuery] wCandSet 1 "flamingo" "ann"
          "left" = .ok scores ∧
      scores.length = wCandSet.keys.length ∧
      ∀ (q1 : 0 < scores.length) (q2 : 1 < scores.length),
        scores.get ⟨0, q1⟩ = scores.get ⟨1, q2⟩ :=
  C10_amended probeInterface probeCider [wQuery] wCandSet 1 "flamingo" "ann" "left"
    (by decide) (by decide) (Or.inl rfl) 0 1 (by decide) (by decide) (by decide)

theorem dictInsert_mem {α : Type} (d : List (Nat × α)) (k : Nat) (v : α)
    (q : Nat × α) (hq : q ∈ dictInsert d k v) : q ∈ d ∨ q = (k, v) := by
  unfold dictInsert at hq
  split at hq
  · rw [List.mem_map] at hq
    obtain ⟨p, hp, hpq⟩ := hq
    by_cases h : p.1 = k
    · rw [if_pos h] at hpq
      right
      exact hpq.symm
    · rw [if_neg h] at hpq
      left
      exact hpq ▸ hp
  · rw [List.mem_append] at hq
    rcases hq with h | h
    · left; exact h
    · right; simpa using h

theorem dictInsert_self {α : Type} (d : List (Nat × α)) (k : Nat) (v : α) :
    (k, v) ∈ dictInsert d k v := by
  unfold dictInsert
  split
  · rename_i h
    rw [List.any_eq_true] at h
    obtain ⟨p, hp, he⟩ := h
    rw [beq_iff_eq] at he
    exact List.mem_map.mpr ⟨p, hp, by rw [if_pos he]⟩
  · exact List.mem_append_right _ (List.mem_singleton.mpr rfl)

theorem dictInsert_key_mem {α : Type} (d : List (Nat × α)) (k k' : Nat) (v : α)
    (h : ∃ w, (k, w) ∈ d) : ∃ w, (k, w) ∈ dictInsert d k' v := by
  obtain ⟨w, hw⟩ := h
  unfold dictInsert
  split
  · by_cases hk : k = k'
    · subst hk
      exact ⟨v, List.mem_map.mpr ⟨(k, w), hw, by simp⟩⟩
    · exact ⟨w, List.mem_map.mpr ⟨(k, w), hw, by simp [hk]⟩⟩
  · exact ⟨w, List.mem_append_left _ hw⟩

theorem resample_loop_spec (draws : Nat → List Nat) (s : Nat) (fuel : Nat) :
    ∀ (t0 : Nat) (cs : List Nat), resample_loop draws s t0 fuel = some cs →
      ∃ t, t0 ≤ t ∧ cs = draws t ∧ s ∉ draws t ∧
        ∀ u, t0 ≤ u → u < t → s ∈ draws u := by
  induction fuel with
  | zero =>
    intro t0 cs h
    unfold resample_loop at h
    by_cases hm : s ∈ draws t0
    · rw [if_pos hm] at h
      exact Option.noConfusion h
    · rw [if_neg hm] at h
      exact ⟨t0, Nat.le_refl _, (Option.some.inj h).symm, hm,
        fun u h1 h2 => absurd h2 (by omega)⟩
  | succ fuel ih =>
    intro t0 cs h
    unfold resample_loop at h
    by_cases hm : s ∈ draws t0
    · rw [if_pos hm] at h
      obtain ⟨t, ht0, hcs, hnot, hall⟩ := ih (t0 + 1) cs h
      refine ⟨t, by omega, hcs, hnot, fun u h1 h2 => ?_⟩
      rcases Nat.eq_or_lt_of_le h1 with h3 | h3
      · rw [← h3]; exact hm
      · exact hall u h3 h2
    · rw [if_neg hm] at h
      exact ⟨t0, Nat.le_refl _, (Option.some.inj h).symm, hm,
        fun u h1 h2 => absurd h2 (by omega)⟩

theorem sample_fold_entries (draws : Nat → Nat → List Nat) (fuel : Nat) :
    ∀ (l : List Nat) (d result : List (Nat × List Nat)),
      l.foldlM (fun candidate_set_idx s_idx =>
          match resample_loop (draws s_idx) s_idx 0 fuel with
          | none => none
          | some cs => some (dictInsert candidate_set_idx s_idx cs)) d
        = some result →
      ∀ q ∈ result, q ∈ d ∨ resample_loop (draws q.1) q.1 0 fuel = some q.2 := by
  intro l
  induction l with
  | nil =>
    intro d result h q hq
    left
    rw [List.foldlM_nil] at h
    exact (Option.some.inj h) ▸ hq
  | cons a l ih =>
    intro d result h q hq
    rw [List.foldlM_cons] at h
    cases hr : resample_loop (draws a) a 0 fuel with
    | none =>
      rw [hr] at h
      exact Option.noConfusion h
    | some cs =>
      rw [hr] at h
      rcases ih _ _ h q hq with hq' | hq'
      · rcases dictInsert_mem d a cs q hq' with h1 | h1
        · left; exact h1
        · right
          rw [h1]
          exact hr
      · right; exact hq'

theorem sample_fold_preserves (draws : Nat → Nat → List Nat) (fuel : Nat) :
    ∀ (l : List Nat) (d result : List (Nat × List Nat)) (k : Nat),
      l.foldlM (fun candidate_set_idx s_idx =>
          match resample_loop (draws s_idx) s_idx 0 fuel with
          | none => none
          | some cs => some (dictInsert candidate_set_idx s_idx cs)) d
        = some result →
      (∃ w, (k, w) ∈ d) → ∃ w, (k, w) ∈ result := by
  intro l
  induction l with
  | nil =>
    intro d result k h hd
    rw [List.foldlM_nil] at h
    exact (Option.some.inj h) ▸ hd
  | cons a l ih =>
    intro d result k h hd
    rw [List.foldlM_cons] at h
    cases hr : resample_loop (draws a) a 0 fuel with
    | none =>
      rw [hr] at h
      exact Option.noConfusion h
    | some cs =>
      rw [hr] at h
      exact ih _ _ k h (dictInsert_key_mem d k a cs hd)

theorem sample_fold_covers (draws : Nat → Nat → List Nat) (fuel : Nat) :
    ∀ (l : List Nat) (d result : List (Nat × List Nat)),
      l.foldlM (fun candidate_set_idx s_idx =>
          match resample_loop (draws s_idx) s_idx 0 fuel with
          | none => none
          | some cs => some (dictInsert candidate_set_idx s_idx cs)) d
        = some result →
      ∀ a ∈ l, ∃ w, (a, w) ∈ result := by
  intro l
  induction l with
  | nil =>
    intro d result _ a ha
    exact absurd ha (List.not_mem_nil a)
  | cons b l ih =>
    intro d result h a ha
    rw [List.foldlM_cons] at h
    cases hr : resample_loop (draws b) b 0 fuel with
    | none =>
      rw [hr] at h
      exact Option.noConfusion h
    | some cs =>
      rw [hr] at h
      rcases List.mem_cons.mp ha with rfl | ha'
      · exact sample_fold_preserves draws fuel l _ result a h
          ⟨cs, dictInsert_self d a cs⟩
      · exact ih _ _ h a ha'

/-- C6: if `RandSampler.sample` terminates, then for every anchor in the
anchor set the returned candidate list never contains the anchor, has exactly
`candidate_num` distinct elements all inside `[0, len(train_ds))` (assuming
the `random.sample` contract for every draw), and it is verbatim the first
oracle draw not containing the anchor: every earlier draw contained the
anchor and was rejected whole, never repaired element-wise. -/
theorem C6_rand_sampler (self : RandSampler) (anchor_set : List Nat)
    (draws : Nat → Nat → List Nat) (fuel n : Nat)
    (result : List (Nat × List Nat))
    (hdraws : ∀ a t, drawValid n self.candidate_num (draws a t))
    (hres : RandSampler.sample self anchor_set draws fuel = some result) :
    ∀ a ∈ anchor_set, ∃ cs,
      (a, cs) ∈ result ∧ a ∉ cs ∧ cs.length = self.candidate_num ∧
      cs.Nodup ∧ (∀ x ∈ cs, x < n) ∧
      ∃ t, cs = draws a t ∧ ∀ u < t, a ∈ draws a u := by
  intro a ha
  unfold RandSampler.sample at hres
  obtain ⟨cs, hcs⟩ := sample_fold_covers draws fuel anchor_set [] result hres a ha
  rcases sample_fold_entries draws fuel anchor_set [] result hres (a, cs) hcs
    with h | h
  · exact absurd h (List.not_mem_nil _)
  · obtain ⟨t, _, hcs_eq, hnot, hall⟩ := resample_loop_spec (draws a) a fuel 0 cs h
    obtain ⟨hlen, hnodup, hrange⟩ := hdraws a t
    refine ⟨cs, hcs, ?_, ?_, ?_, ?_, t, hcs_eq,
      fun u hu => hall u (Nat.zero_le u) hu⟩
    · rw [hcs_eq]; exact hnot
    · rw [hcs_eq]; exact hlen
    · rw [hcs_eq]; exact hnodup
    · rw [hcs_eq]; exact hrange

/-- C6 witness: anchors 0 and 1, candidate_num 2, the deterministic oracle
draw `[(a + t) % 4, 4]` (always two distinct values below 5), fuel 3. -/
theorem C6_witness :
    (∀ a t, drawValid 5 (RandSampler.mk 2).candidate_num [(a + t) % 4, 4]) ∧
    RandSampler.sample ⟨2⟩ [0, 1] (fun a t => [(a + t) % 4, 4]) 3 =
      some [(0, [1, 4]), (1, [2, 4])] ∧
    ∀ a ∈ [0, 1], ∃ cs,
      (a, cs) ∈ [(0, [1, 4]), (1, [2, 4])] ∧ a ∉ cs ∧
      cs.length = (RandSampler.mk 2).candidate_num ∧
      cs.Nodup ∧ (∀ x ∈ cs, x < 5) ∧
      ∃ t, cs = (fun a t => [(a + t) % 4, 4]) a t ∧
        ∀ u < t, a ∈ (fun a t => [(a + t) % 4, 4]) a u := by
  have hdraws : ∀ a t, drawValid 5 (RandSampler.mk 2).candidate_num [(a + t) % 4, 4] := by
    intro a t
    refine ⟨rfl, ?_, ?_⟩
    · have hlt : (a + t) % 4 < 4 := Nat.mod_lt _ (by omega)
      simp only [List.nodup_cons, List.mem_singleton, List.not_mem_nil,
        not_false_iff, List.nodup_nil, and_true]
      omega
    · intro x hx
      have hlt : (a + t) % 4 < 4 := Nat.mod_lt _ (by omega)
      rcases List.mem_cons.mp hx with rfl | hx'
      · omega
      · rcases List.mem_singleton.mp hx' with rfl
        omega
  have hsample : RandSampler.sample ⟨2⟩ [0, 1] (fun a t => [(a + t) % 4, 4]) 3 =
      some [(0, [1, 4]), (1, [2, 4])] := by decide
  exact ⟨hdraws, hsample,
    C6_rand_sampler ⟨2⟩ [0, 1] (fun a t => [(a + t) % 4, 4]) 3 5
      [(0, [1, 4]), (1, [2, 4])] hdraws hsample⟩
